import Mathlib

/-!
Verification of the pyUSID quantity formatting / parsing pair.

Shallow embedding of `src/pyUSID/io/io_utils.py` (`format_quantity`,
`format_time`, `format_size`, `formatted_str_to_number`) and proofs of the
frozen claims about it.

Modelling conventions:
* Python numbers are modelled as `ℚ` (the spec fixes the rounding convention
  to a decimal one, see §4.1: "round-half-to-even or round-half-away-from-zero
  consistently - choose one"; we model `np.round` as exact decimal
  round-half-to-even, which is numpy's documented convention).
* `str` of the rounded float is modelled as the shortest decimal
  representation with at least one fractional digit (Python's `str` on floats
  such as `1.5`, `1.08`, `0.0`).
* Python's builtin `float(...)` is modelled on plain decimal literals
  (optional sign, integer digits, optional point and fraction digits), which
  covers every string the formatter can produce.
* Python argument-level type distinctions (`list`/`tuple` vs other iterables
  vs non-iterables) are modelled by the `PySeq` type.
* Exceptions are modelled with `Except PyError`; `TypeError` / `ValueError`
  carry the message of the corresponding `raise` in the source.
-/

namespace PyUSID

/-- Python exception outcomes raised by the two functions under study. -/
inductive PyError
  | typeError (msg : String)
  | valueError (msg : String)
deriving DecidableEq

/-- Model of the Python argument kinds that the source's `isinstance` checks
distinguish: a `list`, a `tuple`, some other ordered iterable with a length
(e.g. a numpy array, as produced by `1024 ** np.arange(...)` in
`format_size`), or a non-iterable object. -/
inductive PySeq (α : Type)
  | pylist (xs : List α)
  | pytuple (xs : List α)
  | ndarray (xs : List α)
  | notIterable
deriving DecidableEq

/-- Model of `isinstance(x, Iterable)` for a `PySeq`. -/
def PySeq.isIterable {α : Type} : PySeq α → Bool
  | .pylist _ => true
  | .pytuple _ => true
  | .ndarray _ => true
  | .notIterable => false

/-- Model of `isinstance(x, (list, tuple))` for a `PySeq`. -/
def PySeq.isListOrTuple {α : Type} : PySeq α → Bool
  | .pylist _ => true
  | .pytuple _ => true
  | .ndarray _ => false
  | .notIterable => false

/-- The elements of an iterable `PySeq` (meaningless for `notIterable`,
which every use guards against first, as the source's type checks do). -/
def PySeq.elems {α : Type} : PySeq α → List α
  | .pylist xs => xs
  | .pytuple xs => xs
  | .ndarray xs => xs
  | .notIterable => []

/-! ## Decimal digits: printing and parsing characters -/

/-- The character for the decimal digit `d` (`0 ≤ d ≤ 9`). -/
def digitChar (d : ℕ) : Char := Char.ofNat (48 + d)

/-- The numeric value of a decimal digit character. -/
def charVal (c : Char) : ℕ := c.toNat - 48

/-- Value of a big-endian string of decimal digit characters
(the accumulator loop of a decimal-literal parser). -/
def digitsVal (cs : List Char) : ℕ := cs.foldl (fun a c => 10 * a + charVal c) 0

/-- Big-endian decimal digit characters of `n` (empty for `n = 0`);
`fuel`-structured so that it is structurally recursive, `fuel ≥ n` suffices. -/
def natDigitsAux : ℕ → ℕ → List Char
  | 0, _ => []
  | fuel + 1, n =>
    if n = 0 then [] else natDigitsAux fuel (n / 10) ++ [digitChar (n % 10)]

/-- Decimal digit characters of `n`, as Python prints a nonnegative int. -/
def natChars (n : ℕ) : List Char := if n = 0 then ['0'] else natDigitsAux n n

/-- Remove trailing `'0'` characters. -/
def stripRightZeros (cs : List Char) : List Char :=
  (cs.reverse.dropWhile (fun c => c = '0')).reverse

/-- The fractional digit characters printed for the fraction `f / 10 ^ d`
(`f < 10 ^ d`): left-pad the digits of `f` to width `d`, drop trailing
zeros, but keep at least one digit (Python prints `1.0`, not `1.`). -/
def fracChars (f d : ℕ) : List Char :=
  let stripped := stripRightZeros (List.replicate (d - (natChars f).length) '0' ++ natChars f)
  if stripped = [] then ['0'] else stripped

/-- Model of `str(...)` of the float with exact value `m / 10 ^ d`: sign, integer
part, point, fractional digits with trailing zeros removed (at least one). -/
def intFracRepr (m : ℤ) (d : ℕ) : String :=
  let n := m.natAbs
  let body := natChars (n / 10 ^ d) ++ '.' :: fracChars (n % 10 ^ d) d
  String.mk (if m < 0 then '-' :: body else body)

/-! ## Rounding: the model of `np.round` -/

/-- Floor of a rational, computably (`q.num.fdiv q.den`); equal to `⌊q⌋`. -/
def ratFloor (q : ℚ) : ℤ := q.num.fdiv q.den

/-- Round to the nearest integer, ties to the even integer
(numpy's rounding convention). -/
def roundHalfEven (x : ℚ) : ℤ :=
  if x - (ratFloor x : ℚ) < 1 / 2 then ratFloor x
  else if 1 / 2 < x - (ratFloor x : ℚ) then ratFloor x + 1
  else if ratFloor x % 2 = 0 then ratFloor x
  else ratFloor x + 1

/-- The scaled integer produced by `np.round(x, decimals)`: the rounded value
is `npRoundScaled x decimals / 10 ^ decimals`. -/
def npRoundScaled (x : ℚ) (decimals : ℕ) : ℤ := roundHalfEven (x * 10 ^ decimals)

/-! ## `format_quantity` and its wrappers -/

/-- The index-selection loop of `format_quantity`:
```
for index, val in enumerate(factors):
    if value < val:
        index -= 1
        break
```
`scanLoop value i factors` is the value of `index` after the loop given that
`factors` holds the elements not yet enumerated and `i` the position of the
first of them; `none` models `index is None` (empty `factors`). -/
def scanLoop (value : ℚ) : ℕ → List ℚ → Option ℤ
  | i, [] => if i = 0 then none else some ((i : ℤ) - 1)
  | i, v :: rest => if value < v then some ((i : ℤ) - 1) else scanLoop value (i + 1) rest

/-- The index `format_quantity` selects: the loop's result clamped by
`index = max(0, index)`; `none` when `factors` is empty (so that the
subsequent `max(0, None)` raises `TypeError`). -/
def formatIndex (value : ℚ) (factors : List ℚ) : Option ℕ :=
  (scanLoop value 0 factors).map (fun z => (max 0 z).toNat)

/-- Embedding of `format_quantity(value, unit_names, factors, decimals)`.

The two `isinstance(..., Iterable)` checks, the length check, the selection
loop, `index = max(0, index)` and the final format mirror the source line by
line.  The call `validate_list_of_strings(unit_names, 'unit_names')` sits in
`dtype_utils`, which is not part of `src/`; on an iterable of strings (the
only shape expressible here) it returns its argument unchanged, so it is
modelled as the identity. -/
def format_quantity (value : ℚ) (unit_names : PySeq String) (factors : PySeq ℚ)
    (decimals : ℕ) : Except PyError String :=
  if !unit_names.isIterable then
    .error (.typeError "unit_names must an Iterable")
  else if !factors.isIterable then
    .error (.typeError "factors must be an Iterable")
  else if unit_names.elems.length ≠ factors.elems.length then
    .error (.valueError "unit_names and factors must be of the same length")
  else
    match formatIndex value factors.elems with
    | none => .error (.typeError "max does not support comparing int and NoneType")
    | some index =>
        .ok (intFracRepr (npRoundScaled (value / factors.elems.getD index 0) decimals) decimals
              ++ " " ++ unit_names.elems.getD index "")

/-- Embedding of `format_time(time_in_seconds, decimals)`; the Python default
`decimals=2` is passed explicitly by every use below. -/
def format_time (time_in_seconds : ℚ) (decimals : ℕ) : Except PyError String :=
  format_quantity time_in_seconds (.pylist ["msec", "sec", "mins", "hours"])
    (.pylist [0.001, 1, 60, 3600]) decimals

/-- Embedding of `format_size(size_in_bytes, decimals)`; the factors are the numpy array
`1024 ** np.arange(5)`. -/
def format_size (size_in_bytes : ℚ) (decimals : ℕ) : Except PyError String :=
  format_quantity size_in_bytes (.pylist ["bytes", "kB", "MB", "GB", "TB"])
    (.ndarray ((List.range 5).map (fun i => (1024 : ℚ) ^ i))) decimals

/-! ## `formatted_str_to_number` -/

/-- Python's `str.split(sep)` on character lists, fuel-structured
(`fuel ≥ length of the input` suffices; each step consumes at least one
character since the splitting branch requires `sep ≠ []`). -/
def pySplitAux (sep : List Char) : ℕ → List Char → List Char → List (List Char)
  | 0, cs, acc => [acc.reverse ++ cs]
  | _ + 1, [], acc => [acc.reverse]
  | fuel + 1, c :: rest, acc =>
      if sep ≠ [] ∧ List.take sep.length (c :: rest) = sep then
        acc.reverse :: pySplitAux sep fuel (List.drop sep.length (c :: rest)) []
      else pySplitAux sep fuel rest (c :: acc)

/-- Python's `str.split(sep)` for a non-empty separator. -/
def pySplitStr (sep s : String) : List String :=
  (pySplitAux sep.toList s.toList.length s.toList []).map String.mk

/-- The optional leading sign of a decimal literal. -/
def stripSign (cs : List Char) : ℚ × List Char :=
  match cs with
  | [] => (1, [])
  | c :: r => if c = '-' then (-1, r) else if c = '+' then (1, r) else (1, c :: r)

/-- Python's builtin `float(...)`, modelled on plain decimal literals:
optional sign, then digits with at most one decimal point and at least one
digit overall.  `none` models the `ValueError` the builtin raises. -/
def pythonFloat? (s : String) : Option ℚ :=
  let sc := stripSign s.toList
  let ip := sc.2.takeWhile (fun c => c ≠ '.')
  let rest := sc.2.dropWhile (fun c => c ≠ '.')
  match rest with
  | [] =>
      if ip ≠ [] ∧ ip.all Char.isDigit then some (sc.1 * (digitsVal ip : ℚ)) else none
  | _ :: frac =>
      if (ip ≠ [] ∨ frac ≠ []) ∧ ip.all Char.isDigit ∧ frac.all Char.isDigit then
        some (sc.1 * ((digitsVal ip : ℚ) + (digitsVal frac : ℚ) / 10 ^ frac.length))
      else none

/-- The lookup loop of `formatted_str_to_number`:
`for unit_name, scaling in zip(...): if unit_name == components[1]: return ...`;
`none` models falling off the end of the loop (the function returns `None`). -/
def lookupScale : List (String × ℚ) → String → Option ℚ
  | [], _ => none
  | p :: rest, unit => if p.1 = unit then some p.2 else lookupScale rest unit

/-- Modelled from the spec: `validate_list_of_strings` lives in
`dtype_utils`, which is not under `src/`.  Per the spec's data model it
validates a unit-name table (an iterable of strings) and rejects other
argument types with `TypeError`; on the string tables expressible in this
embedding it passes them through. -/
def validate_list_of_strings (strs : PySeq String) (parm_name : String) :
    Except PyError (List String) :=
  if strs.isIterable then .ok strs.elems
  else .error (.typeError (parm_name ++ " should be a list of strings"))

/-- Embedding of `formatted_str_to_number(str_val, magnitude_names, magnitude_values,
separator)`; the Python default `separator=' '` is passed explicitly by every
use below.  The checks appear in source order: `validate_string_args` on
`str_val` (a no-op on an actual string, as here), `validate_list_of_strings`
on `magnitude_names`, `isinstance(separator, str)` (a no-op here),
`isinstance(magnitude_values, (list, tuple))`, the all-numbers check (a no-op
on `ℚ` elements), the length check, the split, then the lookup loop.  The
value `.ok none` models the source's silent `return None` fall-through when
no unit name matches. -/
def formatted_str_to_number (str_val : String) (magnitude_names : PySeq String)
    (magnitude_values : PySeq ℚ) (separator : String) : Except PyError (Option ℚ) :=
  match validate_list_of_strings magnitude_names "magnitude_names" with
  | .error e => .error e
  | .ok names =>
    if !magnitude_values.isListOrTuple then
      .error (.typeError "magnitude_values must be an Iterable")
    else if names.length ≠ magnitude_values.elems.length then
      .error (.valueError "magnitude_names and magnitude_values should be of the same length")
    else if separator = "" then
      .error (.valueError "empty separator")
    else
      let components := pySplitStr separator str_val
      if components.length ≠ 2 then
        .error (.valueError "String value should be of format \"123.45<separator>Unit")
      else
        match lookupScale (names.zip magnitude_values.elems) (components.getD 1 "") with
        | none => .ok none
        | some scaling =>
            match pythonFloat? (components.getD 0 "") with
            | none => .error (.valueError "could not convert string to float")
            | some x => .ok (some (scaling * x))

/-! ## Helper lemmas: rounding -/

lemma ratFloor_eq_floor (q : ℚ) : ratFloor q = ⌊q⌋ := by
  rw [ratFloor, Rat.floor_def, Int.fdiv_eq_ediv _ (by positivity)]

lemma roundHalfEven_of_lt (x : ℚ) (z : ℤ) (hz : ⌊x⌋ = z) (h : x - z < 1 / 2) :
    roundHalfEven x = z := by
  rw [roundHalfEven, ratFloor_eq_floor, hz, if_pos h]

lemma roundHalfEven_of_gt (x : ℚ) (z : ℤ) (hz : ⌊x⌋ = z) (h : 1 / 2 < x - z) :
    roundHalfEven x = z + 1 := by
  rw [roundHalfEven, ratFloor_eq_floor, hz, if_neg (by linarith), if_pos h]

lemma roundHalfEven_intCast (n : ℤ) : roundHalfEven (n : ℚ) = n := by
  apply roundHalfEven_of_lt _ _ (Int.floor_intCast n)
  norm_num

/-- `np.round` is exact on values already representable with `d` decimals. -/
lemma npRoundScaled_exact (n : ℤ) (d : ℕ) : npRoundScaled ((n : ℚ) / 10 ^ d) d = n := by
  rw [npRoundScaled, div_mul_cancel₀ _ (by positivity), roundHalfEven_intCast]

/-! ## Helper lemmas: evaluating `format_quantity` -/

/-- Reduce a `format_quantity` call to its three data computations: the
selected index, the scaled rounded integer, and the assembled string. -/
lemma format_quantity_eval (v : ℚ) (una : PySeq String) (fa : PySeq ℚ)
    (d i : ℕ) (m : ℤ) (out : String)
    (h1 : una.isIterable = true) (h2 : fa.isIterable = true)
    (hlen : una.elems.length = fa.elems.length)
    (hi : formatIndex v fa.elems = some i)
    (hm : npRoundScaled (v / fa.elems.getD i 0) d = m)
    (hout : intFracRepr m d ++ " " ++ una.elems.getD i "" = out) :
    format_quantity v una fa d = .ok out := by
  rw [format_quantity, h1, h2]
  simp [hlen, hi, ← List.getD_eq_getElem?_getD, hm, hout]

/-! ## Helper lemmas: decimal digits -/

lemma charVal_digitChar {d : ℕ} (h : d < 10) : charVal (digitChar d) = d := by
  interval_cases d <;> rfl

lemma isDigit_digitChar {d : ℕ} (h : d < 10) : (digitChar d).isDigit = true := by
  interval_cases d <;> rfl

lemma ne_of_isDigit {c : Char} (h : c.isDigit = true) :
    c ≠ '.' ∧ c ≠ ' ' ∧ c ≠ '-' ∧ c ≠ '+' := by
  refine ⟨?_, ?_, ?_, ?_⟩ <;> (rintro rfl; exact absurd h (by decide))

lemma foldl_natDigitsAux : ∀ fuel n A : ℕ, n ≤ fuel →
    (natDigitsAux fuel n).foldl (fun a c => 10 * a + charVal c) A
      = A * 10 ^ (natDigitsAux fuel n).length + n := by
  intro fuel
  induction fuel with
  | zero =>
    intro n A h
    interval_cases n
    simp [natDigitsAux]
  | succ fuel ih =>
    intro n A h
    by_cases hn : n = 0
    · subst hn; simp [natDigitsAux]
    · rw [natDigitsAux, if_neg hn, List.foldl_append]
      have hle : n / 10 ≤ fuel := by
        have := Nat.div_lt_self (Nat.pos_of_ne_zero hn) (by norm_num : (1 : ℕ) < 10)
        omega
      rw [ih _ A hle]
      have hmod : charVal (digitChar (n % 10)) = n % 10 :=
        charVal_digitChar (Nat.mod_lt _ (by norm_num))
      simp only [List.foldl_cons, List.foldl_nil, List.length_append, List.length_cons,
        List.length_nil, hmod]
      have hdm := Nat.div_add_mod n 10
      set L := (natDigitsAux fuel (n / 10)).length
      set B := A * 10 ^ L with hB
      have hpow : A * 10 ^ (L + (0 + 1)) = B * 10 := by
        rw [hB, pow_succ]; ring
      rw [hpow]
      omega

lemma mem_natDigitsAux : ∀ fuel n : ℕ, ∀ c ∈ natDigitsAux fuel n, c.isDigit = true := by
  intro fuel
  induction fuel with
  | zero => intro n c hc; simp [natDigitsAux] at hc
  | succ fuel ih =>
    intro n c hc
    by_cases hn : n = 0
    · subst hn; simp [natDigitsAux] at hc
    · rw [natDigitsAux, if_neg hn] at hc
      rcases List.mem_append.mp hc with h | h
      · exact ih _ _ h
      · rw [List.mem_singleton.mp h]
        exact isDigit_digitChar (Nat.mod_lt _ (by norm_num))

lemma length_natDigitsAux_le : ∀ fuel n d : ℕ, n < 10 ^ d →
    (natDigitsAux fuel n).length ≤ d := by
  intro fuel
  induction fuel with
  | zero => intro n d _; simp [natDigitsAux]
  | succ fuel ih =>
    intro n d h
    by_cases hn : n = 0
    · subst hn; simp [natDigitsAux]
    · rw [natDigitsAux, if_neg hn]
      have hd : d ≠ 0 := by
        rintro rfl
        simp at h
        omega
      obtain ⟨d', rfl⟩ : ∃ d', d = d' + 1 := ⟨d - 1, by omega⟩
      have hdiv : n / 10 < 10 ^ d' := by
        rw [Nat.div_lt_iff_lt_mul (by norm_num)]
        calc n < 10 ^ (d' + 1) := h
          _ = 10 ^ d' * 10 := by rw [pow_succ]
      have := ih (n / 10) d' hdiv
      simp only [List.length_append, List.length_cons, List.length_nil]
      omega

lemma digitsVal_natChars (n : ℕ) : digitsVal (natChars n) = n := by
  by_cases h : n = 0
  · subst h; rfl
  · rw [natChars, if_neg h, digitsVal, foldl_natDigitsAux n n 0 le_rfl]
    simp

lemma natChars_ne_nil (n : ℕ) : natChars n ≠ [] := by
  by_cases h : n = 0
  · subst h; simp [natChars]
  · rw [natChars, if_neg h]
    obtain ⟨f, rfl⟩ : ∃ f, n = f + 1 := ⟨n - 1, by omega⟩
    rw [natDigitsAux, if_neg h]
    simp

lemma mem_natChars (n : ℕ) : ∀ c ∈ natChars n, c.isDigit = true := by
  intro c hc
  by_cases h : n = 0
  · subst h
    rw [show natChars 0 = ['0'] from rfl] at hc
    rw [List.mem_singleton.mp hc]
    rfl
  · rw [natChars, if_neg h] at hc
    exact mem_natDigitsAux _ _ _ hc

lemma length_natChars_le {n d : ℕ} (h0 : n ≠ 0) (h : n < 10 ^ d) :
    (natChars n).length ≤ d := by
  rw [natChars, if_neg h0]
  exact length_natDigitsAux_le _ _ _ h

lemma foldl_replicate_zeros : ∀ k A : ℕ,
    (List.replicate k '0').foldl (fun a c => 10 * a + charVal c) A = A * 10 ^ k := by
  intro k
  induction k with
  | zero => intro A; simp
  | succ k ih =>
    intro A
    rw [List.replicate_succ, List.foldl_cons, ih]
    have : charVal '0' = 0 := rfl
    rw [this, pow_succ]
    ring

lemma digitsVal_replicate_append (k : ℕ) (cs : List Char) :
    digitsVal (List.replicate k '0' ++ cs) = digitsVal cs := by
  rw [digitsVal, List.foldl_append, foldl_replicate_zeros]
  simp [digitsVal]

lemma digitsVal_append_zeros (cs : List Char) (k : ℕ) :
    digitsVal (cs ++ List.replicate k '0') = digitsVal cs * 10 ^ k := by
  rw [digitsVal, List.foldl_append, ← digitsVal, foldl_replicate_zeros]

lemma strip_decomp (cs : List Char) :
    cs = stripRightZeros cs
          ++ List.replicate (cs.reverse.takeWhile (fun c => c = '0')).length '0' := by
  have h := List.takeWhile_append_dropWhile (fun c => decide (c = '0')) cs.reverse
  have hrepl : (cs.reverse.takeWhile (fun c => c = '0')).reverse
      = List.replicate (cs.reverse.takeWhile (fun c => c = '0')).length '0' := by
    have hmem : ∀ b ∈ (cs.reverse.takeWhile (fun c => c = '0')).reverse, b = '0' := by
      intro b hb
      have := List.mem_takeWhile_imp (List.mem_reverse.mp hb)
      simpa using this
    rw [List.eq_replicate_of_mem hmem, List.length_reverse]
  calc cs = cs.reverse.reverse := (List.reverse_reverse cs).symm
    _ = ((cs.reverse.takeWhile (fun c => decide (c = '0')))
          ++ (cs.reverse.dropWhile (fun c => decide (c = '0')))).reverse := by rw [h]
    _ = (cs.reverse.dropWhile (fun c => decide (c = '0'))).reverse
          ++ (cs.reverse.takeWhile (fun c => decide (c = '0'))).reverse := by
            rw [List.reverse_append]
    _ = stripRightZeros cs
          ++ List.replicate (cs.reverse.takeWhile (fun c => c = '0')).length '0' := by
            rw [stripRightZeros, hrepl]

lemma mem_stripRightZeros (cs : List Char) : ∀ c ∈ stripRightZeros cs, c ∈ cs := by
  intro c hc
  rw [stripRightZeros, List.mem_reverse] at hc
  exact List.mem_reverse.mp ((List.dropWhile_sublist _).subset hc)

lemma stripRightZeros_eq_nil {cs : List Char} (h : ∀ c ∈ cs, c = '0') :
    stripRightZeros cs = [] := by
  rw [stripRightZeros]
  have hd : cs.reverse.dropWhile (fun c => decide (c = '0')) = [] :=
    List.dropWhile_eq_nil_iff.mpr (fun a ha => by simp [h a (List.mem_reverse.mp ha)])
  rw [hd]
  rfl

lemma fracChars_ne_nil (f d : ℕ) : fracChars f d ≠ [] := by
  rw [fracChars]
  split
  · simp
  · assumption

lemma mem_fracChars (f d : ℕ) : ∀ c ∈ fracChars f d, c.isDigit = true := by
  intro c hc
  rw [fracChars] at hc
  split at hc
  · rw [List.mem_singleton.mp hc]; rfl
  · have hpad := mem_stripRightZeros _ _ hc
    rcases List.mem_append.mp hpad with h | h
    · rw [List.eq_of_mem_replicate h]; rfl
    · exact mem_natChars _ _ h

/-- The printed fractional digits denote exactly `f / 10 ^ d`. -/
lemma fracChars_val (f d : ℕ) (hf : f < 10 ^ d) :
    (digitsVal (fracChars f d) : ℚ) / 10 ^ (fracChars f d).length = (f : ℚ) / 10 ^ d := by
  by_cases h0 : f = 0
  · subst h0
    have hz : ∀ c ∈ List.replicate (d - (natChars 0).length) '0' ++ natChars 0, c = '0' := by
      intro c hc
      rcases List.mem_append.mp hc with h | h
      · exact List.eq_of_mem_replicate h
      · rw [show natChars 0 = ['0'] from rfl] at h
        exact List.mem_singleton.mp h
    rw [fracChars]
    simp only [stripRightZeros_eq_nil hz, if_pos rfl, if_true]
    rw [show digitsVal ['0'] = 0 from rfl]
    simp
  · have hL : (natChars f).length ≤ d := length_natChars_le h0 hf
    set padded := List.replicate (d - (natChars f).length) '0' ++ natChars f with hpad
    have hvpad : digitsVal padded = f := by
      rw [hpad, digitsVal_replicate_append, digitsVal_natChars]
    have hlpad : padded.length = d := by
      rw [hpad, List.length_append, List.length_replicate]
      omega
    set k := (padded.reverse.takeWhile (fun c => c = '0')).length with hk
    have hdec : padded = stripRightZeros padded ++ List.replicate k '0' := strip_decomp padded
    have hval : digitsVal (stripRightZeros padded) * 10 ^ k = f := by
      rw [← hvpad]
      conv_rhs => rw [hdec]
      rw [digitsVal_append_zeros]
    have hlen : (stripRightZeros padded).length + k = d := by
      have := congrArg List.length hdec
      simp only [List.length_append, List.length_replicate] at this
      omega
    have hne : stripRightZeros padded ≠ [] := by
      intro hnil
      rw [hnil] at hval
      simp [digitsVal] at hval
      exact h0 hval.symm
    rw [fracChars]
    simp only [← hpad, if_neg hne]
    rw [← hval]
    have h10 : ((10 : ℚ) ^ k) ≠ 0 := by positivity
    push_cast
    rw [← hlen, pow_add]
    rw [mul_div_mul_right _ _ h10]

/-- Evaluating `takeWhile` / `dropWhile` at the decimal point of a printed
number. -/
lemma takeWhile_digits_append (ip rest : List Char) (hip : ∀ c ∈ ip, c.isDigit = true) :
    (ip ++ '.' :: rest).takeWhile (fun c => c ≠ '.') = ip ∧
      (ip ++ '.' :: rest).dropWhile (fun c => c ≠ '.') = '.' :: rest := by
  induction ip with
  | nil => simp [List.takeWhile_cons, List.dropWhile_cons]
  | cons c tl ih =>
    have hct : c ≠ '.' := (ne_of_isDigit (hip c (List.mem_cons_self c tl))).1
    obtain ⟨ih1, ih2⟩ := ih (fun x hx => hip x (List.mem_cons_of_mem c hx))
    simp only [ne_eq, decide_not] at ih1 ih2 ⊢
    simp [List.takeWhile_cons, List.dropWhile_cons, hct, ih1, ih2]

lemma stripSign_digit {c : Char} (h : c.isDigit = true) (r : List Char) :
    stripSign (c :: r) = (1, c :: r) := by
  obtain ⟨-, -, h3, h4⟩ := ne_of_isDigit h
  rw [stripSign, if_neg h3, if_neg h4]

/-- Parsing inverts printing: `float(str(m / 10^d)) = m / 10^d`.  This is the
printer/parser inverse law behind the round-trip claims. -/
theorem pythonFloat_intFracRepr (m : ℤ) (d : ℕ) :
    pythonFloat? (intFracRepr m d) = some ((m : ℚ) / 10 ^ d) := by
  set n := m.natAbs with hn
  set ip := natChars (n / 10 ^ d) with hip
  set fr := fracChars (n % 10 ^ d) d with hfr
  have hipmem : ∀ c ∈ ip, c.isDigit = true := fun c hc => mem_natChars _ c hc
  have hfrmem : ∀ c ∈ fr, c.isDigit = true := fun c hc => mem_fracChars _ _ c hc
  have hipne : ip ≠ [] := natChars_ne_nil _
  have htw := takeWhile_digits_append ip fr hipmem
  obtain ⟨c0, tl, hcons⟩ := List.exists_cons_of_ne_nil hipne
  have hval : (digitsVal ip : ℚ) + (digitsVal fr : ℚ) / 10 ^ fr.length
      = (n : ℚ) / 10 ^ d := by
    rw [hip, digitsVal_natChars, hfr,
      fracChars_val _ _ (Nat.mod_lt _ (by positivity))]
    have hdm : (10 : ℚ) ^ d * ((n / 10 ^ d : ℕ) : ℚ) + ((n % 10 ^ d : ℕ) : ℚ) = (n : ℚ) := by
      rw [show ((10 : ℚ) ^ d) = ((10 ^ d : ℕ) : ℚ) from by push_cast; ring]
      rw [← Nat.cast_mul, ← Nat.cast_add, Nat.cast_inj]
      exact Nat.div_add_mod n (10 ^ d)
    have h10 : ((10 : ℚ) ^ d) ≠ 0 := by positivity
    field_simp
    linarith [hdm]
  have hcond : (ip ≠ [] ∨ fr ≠ []) ∧ ip.all Char.isDigit ∧ fr.all Char.isDigit :=
    ⟨Or.inl hipne, List.all_eq_true.mpr hipmem, List.all_eq_true.mpr hfrmem⟩
  by_cases hm : m < 0
  · have hmn : (m : ℚ) = -(n : ℚ) := by
      rw [hn]
      push_cast [Int.cast_natAbs]
      rw [abs_of_neg (show (m : ℚ) < 0 by exact_mod_cast hm)]
      ring
    have htl : (intFracRepr m d).toList = '-' :: (ip ++ '.' :: fr) := by
      rw [intFracRepr]
      simp only [if_pos hm]
      rfl
    rw [pythonFloat?, htl]
    rw [show stripSign ('-' :: (ip ++ '.' :: fr)) = (-1, ip ++ '.' :: fr) from rfl]
    simp only [htw.1, htw.2]
    rw [if_pos hcond, hval, hmn, neg_div]
    norm_num
  · have hmn : (m : ℚ) = (n : ℚ) := by
      rw [hn]
      push_cast [Int.cast_natAbs]
      rw [abs_of_nonneg (show (0 : ℚ) ≤ (m : ℚ) by exact_mod_cast not_lt.mp hm)]
    have htl : (intFracRepr m d).toList = ip ++ '.' :: fr := by
      rw [intFracRepr]
      simp only [if_neg hm]
      rfl
    have hdig0 : c0.isDigit = true := hipmem c0 (hcons ▸ List.mem_cons_self c0 tl)
    rw [pythonFloat?, htl, hcons, List.cons_append]
    rw [stripSign_digit hdig0 (tl ++ '.' :: fr)]
    simp only [← List.cons_append, ← hcons, htw.1, htw.2]
    rw [if_pos hcond, hval, hmn]
    norm_num

/-! ## Helper lemmas: splitting on a single-character separator -/

lemma pySplitAux_no_sep (c : Char) : ∀ (b acc : List Char) (fuel : ℕ),
    b.length ≤ fuel → (∀ x ∈ b, x ≠ c) →
    pySplitAux [c] fuel b acc = [acc.reverse ++ b] := by
  intro b
  induction b with
  | nil =>
    intro acc fuel _ _
    cases fuel <;> simp [pySplitAux]
  | cons x r ih =>
    intro acc fuel hfuel hmem
    obtain ⟨f, rfl⟩ : ∃ f, fuel = f + 1 := ⟨fuel - 1, by simp at hfuel; omega⟩
    rw [pySplitAux, if_neg ?_]
    · rw [ih (x :: acc) f (by simp at hfuel; omega)
        (fun y hy => hmem y (List.mem_cons_of_mem x hy))]
      simp
    · simp [hmem x (List.mem_cons_self x r)]

lemma pySplitAux_single (c : Char) (b : List Char) (hb : ∀ x ∈ b, x ≠ c) :
    ∀ (a acc : List Char) (fuel : ℕ),
    a.length + 1 + b.length ≤ fuel → (∀ x ∈ a, x ≠ c) →
    pySplitAux [c] fuel (a ++ c :: b) acc = [acc.reverse ++ a, b] := by
  intro a
  induction a with
  | nil =>
    intro acc fuel hfuel _
    obtain ⟨f, rfl⟩ : ∃ f, fuel = f + 1 := ⟨fuel - 1, by omega⟩
    rw [List.nil_append, pySplitAux, if_pos ?_]
    · rw [show List.drop ([c].length) (c :: b) = b from by simp]
      rw [pySplitAux_no_sep c b [] f (by simp at hfuel; omega) hb]
      simp
    · simp
  | cons x r ih =>
    intro acc fuel hfuel hmem
    obtain ⟨f, rfl⟩ : ∃ f, fuel = f + 1 := ⟨fuel - 1, by omega⟩
    rw [List.cons_append, pySplitAux, if_neg ?_]
    · rw [ih (x :: acc) f (by simp at hfuel ⊢; omega)
        (fun y hy => hmem y (List.mem_cons_of_mem x hy))]
      simp
    · simp [hmem x (List.mem_cons_self x r)]

/-- Splitting `a ++ [c] ++ b` on the single-character separator `c` yields
exactly the two components `a` and `b` when neither contains `c`. -/
lemma pySplitStr_pair (sep : String) (c : Char) (hsep : sep.toList = [c])
    (a b : List Char) (ha : ∀ x ∈ a, x ≠ c) (hb : ∀ x ∈ b, x ≠ c) :
    pySplitStr sep (String.mk (a ++ c :: b)) = [String.mk a, String.mk b] := by
  rw [pySplitStr, hsep]
  rw [show (String.mk (a ++ c :: b)).toList = a ++ c :: b from rfl]
  rw [pySplitAux_single c b hb a [] (a ++ c :: b).length (by simp; omega) ha]
  simp

/-! ## Helper lemmas: the lookup loop -/

lemma lookupScale_not_mem (names : List String) (vals : List ℚ) (u : String)
    (h : u ∉ names) : lookupScale (names.zip vals) u = none := by
  induction names generalizing vals with
  | nil => simp [lookupScale]
  | cons nm tl ih =>
    cases vals with
    | nil => simp [lookupScale]
    | cons v vtl =>
      rw [List.zip_cons_cons, lookupScale]
      rw [if_neg (fun he : nm = u => h (by rw [← he]; exact List.mem_cons_self nm tl))]
      exact ih vtl (fun hm => h (List.mem_cons_of_mem _ hm))

lemma lookupScale_zip_get (names : List String) (vals : List ℚ) (i : ℕ)
    (hlen : names.length = vals.length) (hi : i < names.length) (hnd : names.Nodup) :
    lookupScale (names.zip vals) (names.getD i "") = some (vals.getD i 0) := by
  induction names generalizing vals i with
  | nil => simp at hi
  | cons nm tl ih =>
    cases vals with
    | nil => simp at hlen
    | cons v vtl =>
      rw [List.zip_cons_cons, lookupScale]
      cases i with
      | zero => simp [List.getD]
      | succ j =>
        have hj : j < tl.length := by simp at hi; omega
        have hmem : tl.getD j "" ∈ tl := by
          rw [List.getD_eq_getElem tl "" hj]
          exact List.getElem_mem hj
        have hne : nm ≠ tl.getD j "" := by
          intro he
          exact (List.nodup_cons.mp hnd).1 (he ▸ hmem)
        rw [show (nm :: tl).getD (j + 1) "" = tl.getD j "" from rfl]
        rw [if_neg hne,
          ih vtl j (by simpa using hlen) hj (List.nodup_cons.mp hnd).2]
        rfl

/-! ## Helper lemmas: evaluating `formatted_str_to_number` -/

/-- Reduce a successful `formatted_str_to_number` call to its data
computations: the split, the lookup and the float parse. -/
lemma formatted_str_to_number_eval (s : String) (names : List String) (va : PySeq ℚ)
    (sep : String) (hva : va.isListOrTuple = true)
    (hlen : names.length = va.elems.length) (hsep : sep ≠ "")
    (c0 c1 : String) (hsplit : pySplitStr sep s = [c0, c1])
    (sc : ℚ) (hlook : lookupScale (names.zip va.elems) c1 = some sc)
    (x : ℚ) (hx : pythonFloat? c0 = some x) :
    formatted_str_to_number s (.pylist names) va sep = .ok (some (sc * x)) := by
  rw [formatted_str_to_number]
  rw [show validate_list_of_strings (.pylist names) "magnitude_names"
      = .ok names from rfl]
  rw [hva]
  simp [hlen, hsep, hsplit, hlook, hx]

/-! ## Helper lemmas: characterizing the selection loop -/

/-- The position at which the selection loop breaks: the first index whose
factor exceeds `value`, or the length when no factor does. -/
def breakIdx (value : ℚ) : List ℚ → ℕ
  | [] => 0
  | v :: rest => if value < v then 0 else breakIdx value rest + 1

lemma breakIdx_le_length (value : ℚ) : ∀ l : List ℚ, breakIdx value l ≤ l.length := by
  intro l
  induction l with
  | nil => simp [breakIdx]
  | cons v rest ih =>
    rw [breakIdx]
    split
    · simp
    · simpa using ih

lemma getD_le_of_lt_breakIdx (value : ℚ) :
    ∀ (l : List ℚ) (k : ℕ), k < breakIdx value l → l.getD k 0 ≤ value := by
  intro l
  induction l with
  | nil => intro k hk; simp [breakIdx] at hk
  | cons v rest ih =>
    intro k hk
    rw [breakIdx] at hk
    by_cases h : value < v
    · rw [if_pos h] at hk; omega
    · rw [if_neg h] at hk
      cases k with
      | zero => exact le_of_not_lt h
      | succ j => exact ih j (by omega)

lemma lt_getD_breakIdx (value : ℚ) :
    ∀ l : List ℚ, breakIdx value l < l.length →
      value < l.getD (breakIdx value l) 0 := by
  intro l
  induction l with
  | nil => simp [breakIdx]
  | cons v rest ih =>
    intro hlt
    rw [breakIdx]
    by_cases h : value < v
    · rw [if_pos h]; exact h
    · rw [if_neg h]
      rw [breakIdx, if_neg h] at hlt
      exact ih (by simpa using hlt)

lemma scanLoop_eq_breakIdx (value : ℚ) :
    ∀ (l : List ℚ) (i : ℕ), l ≠ [] →
      scanLoop value i l = some ((i : ℤ) + breakIdx value l - 1) := by
  intro l
  induction l with
  | nil => simp
  | cons v rest ih =>
    intro i _
    rw [scanLoop, breakIdx]
    by_cases h : value < v
    · rw [if_pos h, if_pos h]
      norm_num
    · rw [if_neg h, if_neg h]
      cases rest with
      | nil =>
        rw [scanLoop, if_neg (by omega),
          show breakIdx value ([] : List ℚ) = 0 from rfl]
        norm_num
      | cons w ws =>
        rw [ih (i + 1) (by simp)]
        norm_num
        ring

lemma formatIndex_eq (value : ℚ) (l : List ℚ) (h : l ≠ []) :
    formatIndex value l = some (breakIdx value l - 1) := by
  rw [formatIndex, scanLoop_eq_breakIdx value l 0 h]
  simp only [Option.map_some']
  congr 1
  omega

lemma formatIndex_lt_length (value : ℚ) (l : List ℚ) (h : l ≠ []) (i : ℕ)
    (hi : formatIndex value l = some i) : i < l.length := by
  rw [formatIndex_eq value l h] at hi
  have h1 := breakIdx_le_length value l
  have h2 : l.length ≠ 0 := fun h0 => h (List.eq_nil_of_length_eq_zero h0)
  have := Option.some.inj hi
  omega

lemma breakIdx_zero_of_lt (value : ℚ) (l : List ℚ) (hne : l ≠ [])
    (h : value < l.getD 0 0) : breakIdx value l = 0 := by
  obtain ⟨f0, rest, rfl⟩ := List.exists_cons_of_ne_nil hne
  rw [breakIdx, if_pos (by simpa using h)]

lemma breakIdx_pos_of_ge (value : ℚ) (l : List ℚ) (hne : l ≠ [])
    (h : l.getD 0 0 ≤ value) : 1 ≤ breakIdx value l := by
  obtain ⟨f0, rest, rfl⟩ := List.exists_cons_of_ne_nil hne
  rw [breakIdx, if_neg (by simpa using not_lt.mpr h)]
  omega

/-- Strict monotonicity of a strictly-ascending factor table, in `getD` form. -/
lemma chain_lt_getD (l : List ℚ) (hasc : l.Chain' (· < ·)) :
    ∀ k j : ℕ, k < j → j < l.length → l.getD k 0 < l.getD j 0 := by
  intro k j hkj hj
  have hp : l.Pairwise (· < ·) := List.chain'_iff_pairwise.mp hasc
  have hk : k < l.length := lt_trans hkj hj
  rw [List.getD_eq_getElem l 0 hk, List.getD_eq_getElem l 0 hj]
  exact List.pairwise_iff_get.mp hp ⟨k, hk⟩ ⟨j, hj⟩ hkj

lemma chain_le_getD (l : List ℚ) (hasc : l.Chain' (· < ·)) :
    ∀ k j : ℕ, k ≤ j → j < l.length → l.getD k 0 ≤ l.getD j 0 := by
  intro k j hkj hj
  rcases eq_or_lt_of_le hkj with rfl | hlt
  · exact le_refl _
  · exact (chain_lt_getD l hasc k j hlt hj).le

/-! ## Claim theorems -/

/-- Claim C1: For every non-empty, equal-length pair of `unit_names` and
strictly-ascending `factors` and every non-negative value, `format_quantity`
selects (via its selection loop, modelled by `formatIndex`, which
`format_quantity` applies to its factors) the unique index `i` such that
`factors[i] ≤ value` and either `i` is the last index or
`value < factors[i+1]`; a value below `factors[0]` selects index `0`; and a
tie `value = factors[i]` selects exactly index `i`, not the index below. -/
theorem c1_format_quantity_selects_unique_index
    (v : ℚ) (unit_names : List String) (factors : List ℚ)
    (hne : factors ≠ []) (hlen : unit_names.length = factors.length)
    (hasc : factors.Chain' (· < ·)) (hv : 0 ≤ v) :
    ∃ i : ℕ, formatIndex v factors = some i ∧ i < factors.length ∧
      (v < factors.getD 0 0 → i = 0) ∧
      (factors.getD 0 0 ≤ v →
        factors.getD i 0 ≤ v ∧ (i + 1 = factors.length ∨ v < factors.getD (i + 1) 0)) ∧
      (∀ j, j < factors.length → factors.getD j 0 ≤ v →
        (j + 1 = factors.length ∨ v < factors.getD (j + 1) 0) → j = i) ∧
      (∀ j, j < factors.length → v = factors.getD j 0 → i = j) := by
  set b := breakIdx v factors with hb
  have hlenpos : 0 < factors.length := List.length_pos.mpr hne
  have hble : b ≤ factors.length := breakIdx_le_length v factors
  have huniq : ∀ j, j < factors.length → factors.getD j 0 ≤ v →
      (j + 1 = factors.length ∨ v < factors.getD (j + 1) 0) → j = b - 1 := by
    intro j hj hjle hjnext
    have hb1 : 1 ≤ b := by
      by_contra hb0
      have hb0' : b = 0 := by omega
      have hlt0 : v < factors.getD 0 0 := by
        have := lt_getD_breakIdx v factors (by omega)
        rwa [← hb, hb0'] at this
      have : factors.getD 0 0 ≤ factors.getD j 0 :=
        chain_le_getD factors hasc 0 j (Nat.zero_le j) hj
      linarith
    by_contra hjne
    rcases lt_trichotomy j (b - 1) with hlt | heq | hgt
    · have hj1 : j + 1 < b := by omega
      have hle1 : factors.getD (j + 1) 0 ≤ v :=
        getD_le_of_lt_breakIdx v factors (j + 1) hj1
      rcases hjnext with he | hlt2
      · omega
      · linarith
    · exact hjne heq
    · have hbj : b ≤ j := by omega
      have hblen : b < factors.length := lt_of_le_of_lt hbj hj
      have hvb : v < factors.getD b 0 := lt_getD_breakIdx v factors hblen
      have : factors.getD b 0 ≤ factors.getD j 0 :=
        chain_le_getD factors hasc b j hbj hj
      linarith
  refine ⟨b - 1, formatIndex_eq v factors hne, by omega, ?_, ?_, huniq, ?_⟩
  · intro hlt
    have hb0 : b = 0 := breakIdx_zero_of_lt v factors hne hlt
    omega
  · intro hge
    have hb1 : 1 ≤ b := breakIdx_pos_of_ge v factors hne hge
    constructor
    · exact getD_le_of_lt_breakIdx v factors (b - 1) (by omega)
    · rcases eq_or_lt_of_le hble with he | hlt
      · left; omega
      · right
        have := lt_getD_breakIdx v factors hlt
        have hbi : b - 1 + 1 = b := by omega
        rwa [hbi]
  · intro j hj hveq
    refine (huniq j hj hveq.symm.le ?_).symm
    rcases eq_or_lt_of_le (Nat.succ_le_of_lt hj) with he | hlt
    · left; exact he
    · right
      calc v = factors.getD j 0 := hveq
        _ < factors.getD (j + 1) 0 := chain_lt_getD factors hasc j (j + 1) (by omega) hlt

/-- Claim C1 witness: The index characterization instantiated at
`v = 90`, `unit_names = ["sec", "mins"]`, `factors = [1, 60]`. -/
theorem c1_format_quantity_selects_unique_index_witness :
    ∃ i : ℕ, formatIndex 90 [(1 : ℚ), 60] = some i ∧ i < ([(1 : ℚ), 60]).length ∧
      ((90 : ℚ) < ([(1 : ℚ), 60]).getD 0 0 → i = 0) ∧
      (([(1 : ℚ), 60]).getD 0 0 ≤ 90 →
        ([(1 : ℚ), 60]).getD i 0 ≤ 90 ∧
          (i + 1 = ([(1 : ℚ), 60]).length ∨ (90 : ℚ) < ([(1 : ℚ), 60]).getD (i + 1) 0)) ∧
      (∀ j, j < ([(1 : ℚ), 60]).length → ([(1 : ℚ), 60]).getD j 0 ≤ 90 →
        (j + 1 = ([(1 : ℚ), 60]).length ∨ (90 : ℚ) < ([(1 : ℚ), 60]).getD (j + 1) 0) → j = i) ∧
      (∀ j, j < ([(1 : ℚ), 60]).length → (90 : ℚ) = ([(1 : ℚ), 60]).getD j 0 → i = j) :=
  c1_format_quantity_selects_unique_index 90 ["sec", "mins"] [1, 60]
    (by simp) rfl (by norm_num) (by norm_num)

lemma npRoundScaled_eval (x y : ℚ) (d : ℕ) (z : ℤ) (hxy : x * 10 ^ d = y)
    (hz : ⌊y⌋ = z) (hr : y - z < 1 / 2) : npRoundScaled x d = z := by
  rw [npRoundScaled, hxy]
  exact roundHalfEven_of_lt y z hz hr

/-- Claim C7: `format_time`, over the fixed table
`{msec: 0.001, sec: 1, mins: 60, hours: 3600}` with 2 decimals, formats
`0.0005` to `"0.5 msec"`, `65` to `"1.08 mins"` and `3600` to
`"1.0 hours"`. -/
theorem c7_format_time_examples :
    format_time 0.0005 2 = .ok "0.5 msec" ∧
      format_time 65 2 = .ok "1.08 mins" ∧
      format_time 3600 2 = .ok "1.0 hours" := by
  refine ⟨?_, ?_, ?_⟩
  · rw [format_time]
    refine format_quantity_eval _ _ _ _ 0 50 _ rfl rfl rfl ?_ ?_ rfl
    · norm_num [formatIndex, scanLoop, Int.toNat]
    · refine npRoundScaled_eval _ 50 _ _ (by norm_num [PySeq.elems, List.getD]) ?_ (by norm_num)
      rw [Int.floor_eq_iff] <;> norm_num
  · rw [format_time]
    refine format_quantity_eval _ _ _ _ 2 108 _ rfl rfl rfl ?_ ?_ rfl
    · norm_num [formatIndex, scanLoop, Int.toNat]
    · refine npRoundScaled_eval _ (325 / 3) _ _ (by norm_num [PySeq.elems, List.getD]) ?_ (by norm_num)
      rw [Int.floor_eq_iff] <;> norm_num
  · rw [format_time]
    refine format_quantity_eval _ _ _ _ 3 100 _ rfl rfl rfl ?_ ?_ rfl
    · norm_num [formatIndex, scanLoop, Int.toNat]
    · refine npRoundScaled_eval _ 100 _ _ (by norm_num [PySeq.elems, List.getD]) ?_ (by norm_num)
      rw [Int.floor_eq_iff] <;> norm_num

/-- Claim C8: `format_size`, over the fixed table
`{bytes: 1, kB: 1024, MB: 1024², GB: 1024³, TB: 1024⁴}` with 2 decimals,
formats `1024` to `"1.0 kB"`, `1536` to `"1.5 kB"` and `0` to
`"0.0 bytes"`. -/
theorem c8_format_size_examples :
    format_size 1024 2 = .ok "1.0 kB" ∧
      format_size 1536 2 = .ok "1.5 kB" ∧
      format_size 0 2 = .ok "0.0 bytes" := by
  have hfl : (List.range 5).map (fun i => (1024 : ℚ) ^ i)
      = [1, 1024, 1048576, 1073741824, 1099511627776] := by
    norm_num [List.range_succ]
  refine ⟨?_, ?_, ?_⟩
  · rw [format_size]
    refine format_quantity_eval _ _ _ _ 1 100 _ rfl rfl (by simp [PySeq.elems, hfl]) ?_ ?_ rfl
    · simp only [PySeq.elems, hfl]
      norm_num [formatIndex, scanLoop, Int.toNat]
    · simp only [PySeq.elems, hfl]
      refine npRoundScaled_eval _ 100 _ _ (by norm_num [List.getD]) ?_ (by norm_num)
      rw [Int.floor_eq_iff] <;> norm_num
  · rw [format_size]
    refine format_quantity_eval _ _ _ _ 1 150 _ rfl rfl (by simp [PySeq.elems, hfl]) ?_ ?_ rfl
    · simp only [PySeq.elems, hfl]
      norm_num [formatIndex, scanLoop, Int.toNat]
    · simp only [PySeq.elems, hfl]
      refine npRoundScaled_eval _ 150 _ _ (by norm_num [List.getD]) ?_ (by norm_num)
      rw [Int.floor_eq_iff] <;> norm_num
  · rw [format_size]
    refine format_quantity_eval _ _ _ _ 0 0 _ rfl rfl (by simp [PySeq.elems, hfl]) ?_ ?_ rfl
    · simp only [PySeq.elems, hfl]
      norm_num [formatIndex, scanLoop, Int.toNat]
    · simp only [PySeq.elems, hfl]
      refine npRoundScaled_eval _ 0 _ _ (by norm_num [List.getD]) ?_ (by norm_num)
      rw [Int.floor_eq_iff] <;> norm_num

/-- Rebuilding a string from its character list gives it back. -/
lemma mk_toList (s : String) : String.mk s.toList = s := by
  cases s
  rfl

/-- Claim C2 counterexample: The claim says the round trip
`parse_quantity(format_quantity(90, ['sec','mins'], [1,60]), ...)` equals
`1.5`; in fact `90` formats to `"1.5 mins"`, and parsing that string yields
`60 * 1.5 = 90`, not `1.5`. -/
theorem c2_roundtrip_counterexample :
    format_quantity 90 (.pylist ["sec", "mins"]) (.pylist [1, 60]) 2 = .ok "1.5 mins" ∧
      formatted_str_to_number "1.5 mins" (.pylist ["sec", "mins"]) (.pylist [1, 60]) " "
        = .ok (some 90) ∧
      formatted_str_to_number "1.5 mins" (.pylist ["sec", "mins"]) (.pylist [1, 60]) " "
        ≠ .ok (some (3 / 2)) := by
  have hx : pythonFloat? "1.5" = some (((15 : ℤ) : ℚ) / 10 ^ 1) := by
    have h := pythonFloat_intFracRepr 15 1
    rwa [show intFracRepr 15 1 = "1.5" from rfl] at h
  have hparse := formatted_str_to_number_eval "1.5 mins" ["sec", "mins"]
    (.pylist [1, 60]) " " rfl rfl (by decide) "1.5" "mins" rfl 60 rfl _ hx
  rw [show (60 : ℚ) * (((15 : ℤ) : ℚ) / 10 ^ 1) = 90 from by push_cast; norm_num] at hparse
  refine ⟨?_, hparse, ?_⟩
  · refine format_quantity_eval _ _ _ _ 1 150 _ rfl rfl rfl ?_ ?_ rfl
    · norm_num [formatIndex, scanLoop, Int.toNat]
    · refine npRoundScaled_eval _ 150 _ _ (by norm_num [PySeq.elems, List.getD]) ?_ (by norm_num)
      rw [Int.floor_eq_iff]
      constructor <;> norm_num
  · intro hcontra
    rw [hparse] at hcontra
    have : (90 : ℚ) = 3 / 2 := by
      simpa using hcontra
    norm_num at this

/-- Claim C2 amended: Parsing the formatted string `"1.5 mins"` with the unit
table `{sec: 1, mins: 60}` yields `60 * 1.5 = 90.0`, the original raw value:
the round trip returns `90.0`, not the scaled display value `1.5`. -/
theorem c2_roundtrip_amended :
    ∃ s : String,
      format_quantity 90 (.pylist ["sec", "mins"]) (.pylist [1, 60]) 2 = .ok s ∧
        s = "1.5 mins" ∧
        formatted_str_to_number s (.pylist ["sec", "mins"]) (.pylist [1, 60]) " "
          = .ok (some 90) := by
  have hx : pythonFloat? "1.5" = some (((15 : ℤ) : ℚ) / 10 ^ 1) := by
    have h := pythonFloat_intFracRepr 15 1
    rwa [show intFracRepr 15 1 = "1.5" from rfl] at h
  have hparse := formatted_str_to_number_eval "1.5 mins" ["sec", "mins"]
    (.pylist [1, 60]) " " rfl rfl (by decide) "1.5" "mins" rfl 60 rfl _ hx
  rw [show (60 : ℚ) * (((15 : ℤ) : ℚ) / 10 ^ 1) = 90 from by push_cast; norm_num] at hparse
  refine ⟨"1.5 mins", ?_, rfl, hparse⟩
  refine format_quantity_eval _ _ _ _ 1 150 _ rfl rfl rfl ?_ ?_ rfl
  · norm_num [formatIndex, scanLoop, Int.toNat]
  · refine npRoundScaled_eval _ 150 _ _ (by norm_num [PySeq.elems, List.getD]) ?_ (by norm_num)
    rw [Int.floor_eq_iff]
    constructor <;> norm_num

/-- Claim C4: On well-formed parser input (typed arguments, a text that splits
into exactly two components, a first component that parses as a number)
whose unit component matches no name in the table, the lookup loop falls off
the end: the parser raises no exception and silently returns `None`. -/
theorem c4_parser_silent_none_on_unknown_unit
    (s : String) (names : List String) (vals : List ℚ) (sep : String)
    (hlen : names.length = vals.length) (hsep : sep ≠ "")
    (hsplit : (pySplitStr sep s).length = 2)
    (hnum : pythonFloat? ((pySplitStr sep s).getD 0 "") ≠ none)
    (hmiss : (pySplitStr sep s).getD 1 "" ∉ names) :
    formatted_str_to_number s (.pylist names) (.pylist vals) sep = .ok none := by
  obtain ⟨c0, c1, hc⟩ := List.length_eq_two.mp hsplit
  have hmiss1 : c1 ∉ names := by simpa [hc] using hmiss
  rw [formatted_str_to_number]
  rw [show validate_list_of_strings (.pylist names) "magnitude_names"
      = .ok names from rfl, hc]
  simp [hlen, hsep, PySeq.isListOrTuple, PySeq.elems,
    lookupScale_not_mem names vals c1 hmiss1]

/-- Claim C4 witness: `"4.32 GHz"` against the table
`{Hz: 1, kHz: 1e3, MHz: 1e6}`: the unit `GHz` is unknown, the call returns
`None` without raising. -/
theorem c4_parser_silent_none_on_unknown_unit_witness :
    formatted_str_to_number "4.32 GHz" (.pylist ["Hz", "kHz", "MHz"])
      (.pylist [1, 1e3, 1e6]) " " = .ok none :=
  c4_parser_silent_none_on_unknown_unit "4.32 GHz" ["Hz", "kHz", "MHz"]
    [1, 1e3, 1e6] " " rfl (by decide) (by decide) (by decide) (by decide)

/-- Claim C5: `format_quantity` validates its arguments before any computation
on the value (the outcome does not depend on `value`): mismatched lengths
raise `ValueError`, and a non-iterable `unit_names` or `factors` raises
`TypeError`, with the source's messages. -/
theorem c5_format_quantity_argument_validation
    (v : ℚ) (names : List String) (facs : List ℚ) (d : ℕ) :
    (names.length ≠ facs.length →
      format_quantity v (.pylist names) (.pylist facs) d
        = .error (.valueError "unit_names and factors must be of the same length")) ∧
      format_quantity v .notIterable (.pylist facs) d
        = .error (.typeError "unit_names must an Iterable") ∧
      format_quantity v (.pylist names) .notIterable d
        = .error (.typeError "factors must be an Iterable") := by
  refine ⟨fun h => ?_, rfl, rfl⟩
  rw [format_quantity]
  simp [PySeq.isIterable, PySeq.elems, h]

/-- Claim C5 witness: One name against zero factors raises the length
`ValueError`, and non-iterable arguments raise the `TypeError`s. -/
theorem c5_format_quantity_argument_validation_witness :
    (((["a"] : List String)).length ≠ (([] : List ℚ)).length) ∧
      (format_quantity 7 (.pylist ["a"]) (.pylist ([] : List ℚ)) 2
        = .error (.valueError "unit_names and factors must be of the same length")) :=
  ⟨by decide, (c5_format_quantity_argument_validation 7 ["a"] [] 2).1 (by decide)⟩

/-- Claim C6: When the input string does not split into exactly two components
on the separator, the parser raises the format `ValueError` (with the
source's message) regardless of the unit table and of the numeric text, i.e.
before any unit lookup or numeric parse. -/
theorem c6_format_error_on_bad_split
    (s : String) (names : List String) (vals : List ℚ) (sep : String)
    (hlen : names.length = vals.length) (hsep : sep ≠ "")
    (hsplit : (pySplitStr sep s).length ≠ 2) :
    formatted_str_to_number s (.pylist names) (.pylist vals) sep
      = .error (.valueError "String value should be of format \"123.45<separator>Unit") := by
  rw [formatted_str_to_number]
  rw [show validate_list_of_strings (.pylist names) "magnitude_names"
      = .ok names from rfl]
  simp [hlen, hsep, hsplit, PySeq.isListOrTuple, PySeq.elems]

/-- Claim C6 witness: `parse_quantity("4.32MHz", ['Hz','kHz','MHz'],
[1, 1e3, 1e6], separator=' ')`: no separator present, one component, the
format `ValueError` is raised. -/
theorem c6_format_error_on_bad_split_witness :
    formatted_str_to_number "4.32MHz" (.pylist ["Hz", "kHz", "MHz"])
      (.pylist [1, 1e3, 1e6]) " "
      = .error (.valueError "String value should be of format \"123.45<separator>Unit") :=
  c6_format_error_on_bad_split "4.32MHz" ["Hz", "kHz", "MHz"] [1, 1e3, 1e6] " "
    rfl (by decide) (by decide)

/-- Claim C9: The two halves of the format/parse pair have asymmetric
input-type requirements: `formatted_str_to_number` rejects a numeric
iterable that is not exactly a `list` or `tuple` (e.g. a numpy array) with
`TypeError` before any parsing, for every input string; while
`format_quantity`'s `isinstance(..., Iterable)` check accepts the same
value, behaving exactly as on a `list`. -/
theorem c9_parser_rejects_nonlist_iterables
    (s : String) (names : List String) (xs : List ℚ) (sep : String) (v : ℚ) (d : ℕ) :
    formatted_str_to_number s (.pylist names) (.ndarray xs) sep
      = .error (.typeError "magnitude_values must be an Iterable") ∧
      format_quantity v (.pylist names) (.ndarray xs) d
        = format_quantity v (.pylist names) (.pylist xs) d :=
  ⟨rfl, rfl⟩

/-- Claim C10: `format_quantity` applied to empty (equal-length) tables passes
every argument check, the selection loop never runs, `index` stays `None`,
and the call fails with the unhandled `TypeError` from `max(0, None)` - not
with any of the documented `InvalidArgument` (`ValueError`) outcomes. -/
theorem c10_empty_table_unhandled_type_error (v : ℚ) (d : ℕ) :
    format_quantity v (.pylist []) (.pylist []) d
      = .error (.typeError "max does not support comparing int and NoneType") ∧
      ∀ msg, format_quantity v (.pylist []) (.pylist []) d
        ≠ .error (.valueError msg) := by
  refine ⟨rfl, fun msg h => ?_⟩
  rw [show format_quantity v (.pylist []) (.pylist []) d
      = .error (.typeError "max does not support comparing int and NoneType") from rfl] at h
  exact PyError.noConfusion (Except.error.inj h)

/-- Appending strings around a space, at the character-list level. -/
lemma string_append_space (x y : String) :
    x ++ " " ++ y = String.mk (x.toList ++ ' ' :: y.toList) := by
  cases x with
  | mk a =>
    cases y with
    | mk b =>
      show String.mk ((a ++ [' ']) ++ b) = String.mk (a ++ ' ' :: b)
      rw [List.append_assoc]
      rfl

/-- The number text printed by the formatter never contains the space
separator. -/
lemma intFracRepr_no_space (m : ℤ) (d : ℕ) :
    ∀ c ∈ (intFracRepr m d).toList, c ≠ ' ' := by
  have hbody : ∀ c ∈ natChars (m.natAbs / 10 ^ d)
      ++ '.' :: fracChars (m.natAbs % 10 ^ d) d, c ≠ ' ' := by
    intro c hc
    rcases List.mem_append.mp hc with h | h
    · exact (ne_of_isDigit (mem_natChars _ _ h)).2.1
    · rcases List.mem_cons.mp h with rfl | h
      · decide
      · exact (ne_of_isDigit (mem_fracChars _ _ _ h)).2.1
  intro c hc
  have htl : (intFracRepr m d).toList
      = (if m < 0 then
          '-' :: (natChars (m.natAbs / 10 ^ d) ++ '.' :: fracChars (m.natAbs % 10 ^ d) d)
        else natChars (m.natAbs / 10 ^ d) ++ '.' :: fracChars (m.natAbs % 10 ^ d) d) := rfl
  rw [htl] at hc
  split at hc
  · rcases List.mem_cons.mp hc with rfl | h
    · decide
    · exact hbody c h
  · exact hbody c hc

/-- Claim C3: For every value `v` whose selected formatting index `i` makes
`v / factors[i]` exactly representable at `decimals` precision (i.e. equal
to `n / 10 ^ decimals` for an integer `n`), parsing the formatted string
with the same (well-formed) unit table recovers `v` within an absolute
tolerance of `10 ^ -decimals` (in fact exactly). -/
theorem c3_roundtrip_recovers_exact_value
    (v : ℚ) (names : List String) (factors : List ℚ) (d : ℕ)
    (hlen : names.length = factors.length) (hne : factors ≠ [])
    (hnd : names.Nodup)
    (hnosp : ∀ nm ∈ names, ∀ c ∈ nm.toList, c ≠ ' ')
    (hpos : ∀ f ∈ factors, 0 < f)
    (i : ℕ) (hi : formatIndex v factors = some i)
    (n : ℤ) (hrep : v / factors.getD i 0 = (n : ℚ) / 10 ^ d) :
    ∃ s r, format_quantity v (.pylist names) (.pylist factors) d = .ok s ∧
      formatted_str_to_number s (.pylist names) (.pylist factors) " " = .ok (some r) ∧
      |r - v| ≤ 1 / 10 ^ d := by
  have hil : i < factors.length := formatIndex_lt_length v factors hne i hi
  have hin : i < names.length := by omega
  have hm : npRoundScaled (v / factors.getD i 0) d = n := by
    rw [hrep]
    exact npRoundScaled_exact n d
  set nm := names.getD i "" with hnm
  set s := intFracRepr n d ++ " " ++ nm with hs
  have hfmt : format_quantity v (.pylist names) (.pylist factors) d = .ok s :=
    format_quantity_eval v _ _ d i n s rfl rfl hlen hi hm rfl
  have hnmmem : nm ∈ names := by
    rw [hnm, List.getD_eq_getElem names "" hin]
    exact List.getElem_mem hin
  have hsplit : pySplitStr " " s = [intFracRepr n d, nm] := by
    rw [hs, string_append_space,
      pySplitStr_pair " " ' ' rfl _ _ (intFracRepr_no_space n d) (hnosp nm hnmmem),
      mk_toList, mk_toList]
  have hlook : lookupScale (names.zip factors) nm = some (factors.getD i 0) := by
    rw [hnm]
    exact lookupScale_zip_get names factors i hlen hin hnd
  have hparse := formatted_str_to_number_eval s names (.pylist factors) " "
    rfl hlen (by decide) (intFracRepr n d) nm hsplit (factors.getD i 0) hlook _
    (pythonFloat_intFracRepr n d)
  have hfpos : 0 < factors.getD i 0 := by
    have hmem : factors.getD i 0 ∈ factors := by
      rw [List.getD_eq_getElem factors 0 hil]
      exact List.getElem_mem hil
    exact hpos _ hmem
  have hr : factors.getD i 0 * ((n : ℚ) / 10 ^ d) = v := by
    rw [← hrep, mul_comm, div_mul_cancel₀ v (ne_of_gt hfpos)]
  refine ⟨s, factors.getD i 0 * ((n : ℚ) / 10 ^ d), hfmt, hparse, ?_⟩
  rw [hr, sub_self, abs_zero]
  positivity

/-- Claim C3 witness: `v = 90` over `{sec: 1, mins: 60}` with 2 decimals:
`90 / 60 = 1.5 = 150 / 10²` is exactly representable, and the round trip
recovers `90` within `10⁻²`. -/
theorem c3_roundtrip_recovers_exact_value_witness :
    ∃ s r, format_quantity 90 (.pylist ["sec", "mins"]) (.pylist [1, 60]) 2 = .ok s ∧
      formatted_str_to_number s (.pylist ["sec", "mins"]) (.pylist [1, 60]) " "
        = .ok (some r) ∧
      |r - 90| ≤ 1 / 10 ^ 2 :=
  c3_roundtrip_recovers_exact_value 90 ["sec", "mins"] [1, 60] 2 rfl (by simp)
    (by decide) (by decide) (by norm_num) 1
    (by norm_num [formatIndex, scanLoop, Int.toNat]) 150 (by norm_num [List.getD])

end PyUSID
